import Mathlib

/-!
Shallow embedding (in Lean 4) of the configuration model and
validation/lookup engine of the `uplink` repository, spec §§3-4.
The module `uplink/config.py` itself is not among the repository files
available under `src/`; only its unit tests (`src/tests/test_config.py`),
its exceptions (`src/uplink/exceptions.py`) and its CLI callers are.
Definitions below that embed that missing module are therefore modelled
from the spec's words (and pinned to the exact behaviour the repository's
own test suite demands), as their doc comments record.
-/

namespace Uplink

/-- Modelled from the spec: the values stored in a role's free-form options
record (e.g. `{"scheme": "https", "verify": true}`, spec §3): JSON strings
and booleans, which are the only option values the configuration uses. -/
inductive OptValue where
  | str (s : String)
  | bool (b : Bool)
deriving DecidableEq

/-- A role's options record: an association list from option name to value. -/
abbrev RoleOptions := List (String × OptValue)

/-- Modelled from the spec: the `PulpSystem` value object of the missing
`uplink.config` module (spec §3): a hostname plus a mapping from role name
to a free-form options record. -/
structure PulpSystem where
  hostname : String
  roles : List (String × RoleOptions)
deriving DecidableEq

/-- Modelled from the spec: a raw configuration record in the current format
(spec §6): `pulp.auth`, `pulp.version` and the `systems` sequence. -/
structure RawConfig where
  pulp_auth : List String
  pulp_version : String
  systems : List PulpSystem
deriving DecidableEq

/-- Modelled from the spec: the fixed set `ROLES` of valid role names
(spec §3 and the role names exercised by `src/tests/test_config.py`). -/
def ROLES : List String :=
  ["amqp broker", "api", "mongod", "pulp celerybeat", "pulp cli",
   "pulp resource manager", "pulp workers", "shell", "squid"]

/-- Modelled from the spec: the mandatory subset of roles every configuration
must cover in union (spec §3 and §4.2: `api`, `pulp workers`). -/
def REQUIRED_ROLES : List String := ["api", "pulp workers"]

/-- Split a character list on a separator character. The result is always a
non-empty list of (possibly empty) parts. -/
def splitOnChar (sep : Char) : List Char → List (List Char)
  | [] => [[]]
  | c :: cs =>
    let r := splitOnChar sep cs
    if c = sep then [] :: r
    else (c :: r.headD []) :: r.tail

/-- An ASCII letter or digit. -/
def isAlnum (c : Char) : Bool := c.isAlpha || c.isDigit

/-- A character allowed inside a hostname label: letter, digit or hyphen. -/
def isLabelChar (c : Char) : Bool := c.isAlpha || c.isDigit || c = '-'

/-- Interior of a hostname label: every character a label character, the
last one a letter or digit, and the label non-empty. -/
def validLabelCore : List Char → Bool
  | [] => false
  | [c] => isAlnum c
  | c :: c2 :: cs => isLabelChar c && validLabelCore (c2 :: cs)

/-- A valid hostname label: non-empty, at most 63 characters, made of
letters, digits and hyphens, and neither starting nor ending in a hyphen. -/
def validLabel (l : List Char) : Bool :=
  match l with
  | [] => false
  | c :: _ => isAlnum c && validLabelCore l && l.length ≤ 63

/-- Modelled from the spec: hostname syntax (spec §3, `hostname` must
satisfy hostname syntax; §4.2 calls it the `'hostname'` format): dot
separated labels, each valid, total length at most 253. The empty string
has the single empty label and is invalid. -/
def is_valid_hostname (s : String) : Bool :=
  s.data.length ≤ 253 && (splitOnChar '.' s.data).all validLabel

/-- Python `repr` of a string as embedded in validator messages (quotes
around the text; none of the configuration strings need escaping). -/
def pyStr (s : String) : String := "'" ++ s ++ "'"

/-- Python `repr` of a list of strings as embedded in validator messages. -/
def pyStrList (l : List String) : String :=
  "[" ++ String.intercalate ", " (l.map pyStr) ++ "]"

/-- The validator message for a too-short `pulp.auth` sequence, exactly as
`src/tests/test_config.py` line 133 expects it. -/
def auth_too_short_msg (auth : List String) : String :=
  "Failed to validate config['pulp']['auth'] because " ++ pyStrList auth
    ++ " is too short."

/-- Modelled from the spec: the message for an empty string inside
`pulp.auth` (spec §4.2: a 2-element sequence of non-empty strings). -/
def auth_elem_empty_msg (i : Nat) : String :=
  "Failed to validate config['pulp']['auth'][" ++ toString i
    ++ "] because '' is too short."

/-- The validator message for an invalid hostname, exactly as
`src/tests/test_config.py` line 135 expects it. -/
def hostname_msg (i : Nat) (h : String) : String :=
  "Failed to validate config['systems'][" ++ toString i
    ++ "]['hostname'] because " ++ pyStr h ++ " is not a 'hostname'."

/-- Modelled from the spec: the message for an empty `pulp.version`
(spec §4.2: a non-empty version string). -/
def version_empty_msg : String :=
  "Failed to validate config['pulp']['version'] because '' is too short."

/-- Modelled from the spec: the message for an empty `systems` sequence
(spec §4.2: `systems` must be a non-empty sequence). -/
def systems_empty_msg : String :=
  "Failed to validate config['systems'] because [] is too short."

/-- Modelled from the spec: the message for a role name outside the fixed
role set (spec §4.2: roles is a mapping whose keys are drawn from the
fixed role set). -/
def bad_role_msg (i : Nat) (role : String) : String :=
  "Failed to validate config['systems'][" ++ toString i
    ++ "]['roles'] because " ++ pyStr role ++ " is not a valid role."

/-- One message per empty string inside `pulp.auth`, walking the whole
sequence with its indices. -/
def auth_elem_errors (i : Nat) : List String → List String
  | [] => []
  | a :: rest =>
    (if a = "" then [auth_elem_empty_msg i] else []) ++ auth_elem_errors (i + 1) rest

/-- Structural violations of the `pulp.auth` field: too short, and one
message per empty element. -/
def auth_errors (auth : List String) : List String :=
  (if auth.length < 2 then [auth_too_short_msg auth] else [])
    ++ auth_elem_errors 0 auth

/-- One message per role key of a system that is outside the fixed role set. -/
def role_key_errors (i : Nat) : List (String × RoleOptions) → List String
  | [] => []
  | (r, _) :: rest =>
    (if ROLES.contains r then [] else [bad_role_msg i r]) ++ role_key_errors i rest

/-- Structural violations of the systems sequence, walking every system:
hostname syntax and role-key membership, with bracket-indexed paths. -/
def system_errors (i : Nat) : List PulpSystem → List String
  | [] => []
  | s :: rest =>
    (if is_valid_hostname s.hostname then [] else [hostname_msg i s.hostname])
      ++ role_key_errors i s.roles
      ++ system_errors (i + 1) rest

/-- Modelled from the spec: the structural walk of the whole record
(spec §4.2), collecting one human-readable message per violation, each
with a bracket-indexed path. -/
def structural_errors (c : RawConfig) : List String :=
  auth_errors c.pulp_auth
    ++ (if c.pulp_version = "" then [version_empty_msg] else [])
    ++ (if c.systems.isEmpty then [systems_empty_msg] else [])
    ++ system_errors 0 c.systems

/-- The union (as a list, in first-occurrence order of traversal) of role
names present across all systems of a record. -/
def present_roles (c : RawConfig) : List String :=
  c.systems.foldl (fun acc s => acc ++ s.roles.map Prod.fst) []

/-- The mandatory roles absent from the union of role names across all
systems, in the fixed (sorted) order of `REQUIRED_ROLES`. -/
def missing_roles (c : RawConfig) : List String :=
  REQUIRED_ROLES.filter fun r => !((present_roles c).contains r)

/-- Modelled from the spec: the single combined cross-record message listing
all missing mandatory roles, comma separated (spec §4.2 and
`src/tests/test_config.py` line 149). -/
def role_errors (c : RawConfig) : List String :=
  if missing_roles c = [] then []
  else ["The following roles are missing: "
          ++ String.intercalate ", " (missing_roles c)]

/-- Every message the validator collects on a record: the structural walk's
messages, and, only once those pass, the cross-record role message. -/
def collected_messages (c : RawConfig) : List String :=
  if structural_errors c = [] then role_errors c else structural_errors c

/-- Modelled from the spec: `uplink.config.validate_config` (spec §4.2).
`some msgs` models raising `ConfigValidationError` with `error_messages =
msgs`; `none` models returning nothing. Structural violations are raised
first; the cross-record role rule runs only after structural checks pass. -/
def validate_config (c : RawConfig) : Option (List String) :=
  if structural_errors c = [] then
    if role_errors c = [] then none else some (role_errors c)
  else some (structural_errors c)

/-- The roles of the first system of the `UPLINK_CONFIG` fixture of
`src/tests/test_config.py` (lines 21-35). -/
def firstSystemRoles : List (String × RoleOptions) :=
  [("amqp broker", [("service", .str "qpidd")]),
   ("api", [("scheme", .str "https"), ("verify", .bool true)]),
   ("mongod", []),
   ("pulp cli", []),
   ("pulp celerybeat", []),
   ("pulp resource manager", []),
   ("pulp workers", []),
   ("shell", [("transport", .str "local")]),
   ("squid", [])]

/-- The roles of the second system of the `UPLINK_CONFIG` fixture of
`src/tests/test_config.py` (lines 36-46). -/
def secondSystemRoles : List (String × RoleOptions) :=
  [("api", [("scheme", .str "https"), ("verify", .bool false)]),
   ("pulp celerybeat", []),
   ("pulp resource manager", []),
   ("pulp workers", []),
   ("shell", [("transport", .str "ssh")]),
   ("squid", [])]

/-- The `UPLINK_CONFIG` fixture of `src/tests/test_config.py` (lines 15-49)
as a raw record. -/
def uplinkFixture : RawConfig :=
  { pulp_auth := ["username", "password"],
    pulp_version := "2.12.1",
    systems :=
      [⟨"first.example.com", firstSystemRoles⟩,
       ⟨"second.example.com", secondSystemRoles⟩] }

/-- The decimal digit character of `d` (meaningful for `d < 10`). -/
def digitChar (d : Nat) : Char := Char.ofNat (48 + d)

/-- The numeric value of a decimal digit character. -/
def digitVal (c : Char) : Nat := c.toNat - 48

/-- Fuel-driven most-significant-first decimal rendering of a natural
number onto an accumulator. The fuel `n + 1` of `natChars` always
suffices. -/
def natCharsAux : Nat → Nat → List Char → List Char
  | 0, _, acc => acc
  | fuel + 1, n, acc =>
    if n < 10 then digitChar n :: acc
    else natCharsAux fuel (n / 10) (digitChar (n % 10) :: acc)

/-- The decimal rendering of a natural number as a character list. -/
def natChars (n : Nat) : List Char := natCharsAux (n + 1) n []

/-- Parse a character list as a decimal numeral: at least one character,
all digits. -/
def parseNatChars (cs : List Char) : Option Nat :=
  if cs ≠ [] && cs.all Char.isDigit then
    some (cs.foldl (fun n c => n * 10 + digitVal c) 0)
  else none

/-- Modelled from the spec: the `Version` value of the missing
`uplink.config` module (spec §3 and §4.1, `VersionValue`): an ordered
tuple of numeric components, immutable once constructed. -/
structure Version where
  components : List Nat
deriving DecidableEq

/-- Whether every component of a sequence is zero. -/
def allZerosB : List Nat → Bool
  | [] => true
  | b :: bs => b = 0 && allZerosB bs

/-- Compare two component sequences, the shorter one treated as padded
with zeros (spec §4.1), by walking them component by component: once the
left sequence is exhausted it stands for zeros, so the result is `eq`
when the remaining right components are all zero and `lt` otherwise. -/
def vcompare : List Nat → List Nat → Ordering
  | [], bs => if allZerosB bs then .eq else .lt
  | a :: as, [] => if 0 < a then .gt else vcompare as []
  | a :: as, b :: bs =>
    if a < b then .lt else if b < a then .gt else vcompare as bs

/-- Version equality (`==` on `VersionValue`): component comparison says
they are equal. -/
def Version.veq (v w : Version) : Bool :=
  vcompare v.components w.components = Ordering.eq

/-- Version strict ordering (`<` on `VersionValue`): component comparison
says less-than. -/
def Version.vlt (v w : Version) : Bool :=
  vcompare v.components w.components = Ordering.lt

/-- The dot-separated character rendering of a component sequence. -/
def versionChars : List Nat → List Char
  | [] => []
  | [n] => natChars n
  | n :: m :: rest => natChars n ++ '.' :: versionChars (m :: rest)

/-- Render a version back to its dot-separated numeric string (Python
`str` on a version value). -/
def versionToString (v : Version) : String := ⟨versionChars v.components⟩

/-- Modelled from the spec: the `Version` constructor (spec §4.1): accepts
a dot-separated numeric string and fails with a parse error (here `none`)
on non-numeric or empty components. -/
def parseVersion (s : String) : Option Version :=
  ((splitOnChar '.' s.data).mapM parseNatChars).map Version.mk

/-- Modelled from the spec: the `UplinkConfig` aggregate root of the
missing `uplink.config` module (spec §3): credentials, parsed version,
systems, and the private filename/directory used for path resolution. -/
structure UplinkConfig where
  pulp_auth : List String
  pulp_version : Version
  systems : List PulpSystem
  xdg_config_file : String
  xdg_config_dir : String
deriving DecidableEq

/-- Modelled from the spec: construction of an `UplinkConfig` from explicit
attributes (spec §3 lifecycle, §6 environment variable): `pulp_auth` and
`systems` are stored exactly as given, `pulp_version` is parsed into a
`Version` (failure propagates as `none`), and the private settings
filename is the value of the `UPLINK_CONFIG_FILE` environment variable
when set, the default `settings.json` otherwise. The environment is
passed explicitly as a lookup function. -/
def mkUplinkConfig (env : String → Option String) (pulp_auth : List String)
    (pulp_version : String) (systems : List PulpSystem) : Option UplinkConfig :=
  (parseVersion pulp_version).map fun v =>
    { pulp_auth := pulp_auth
      pulp_version := v
      systems := systems
      xdg_config_file := (env "UPLINK_CONFIG_FILE").getD "settings.json"
      xdg_config_dir := "uplink" }

/-- One keyword argument of the developer-facing representation of an
`UplinkConfig`: key and value, the version value rendered as its string. -/
inductive ReprArg where
  | pulpAuth (v : List String)
  | pulpVersion (v : String)
  | systems (v : List PulpSystem)
deriving DecidableEq

/-- Modelled from the spec: the keyword arguments the developer-facing
representation of an instance emits (spec §4.5: the public attributes,
the version rendered back to its string form), in the canonical order;
the representation may emit them in any order. -/
def reprArgsOf (c : UplinkConfig) : List ReprArg :=
  [.pulpAuth c.pulp_auth, .pulpVersion (versionToString c.pulp_version),
   .systems c.systems]

/-- The `pulp_auth` keyword argument of a representation, if present. -/
def findAuthArg (args : List ReprArg) : Option (List String) :=
  args.findSome? fun a => match a with | .pulpAuth v => some v | _ => none

/-- The `pulp_version` keyword argument of a representation, if present. -/
def findVersionArg (args : List ReprArg) : Option String :=
  args.findSome? fun a => match a with | .pulpVersion v => some v | _ => none

/-- The `systems` keyword argument of a representation, if present. -/
def findSystemsArg (args : List ReprArg) : Option (List PulpSystem) :=
  args.findSome? fun a => match a with | .systems v => some v | _ => none

/-- Modelled from the spec: parsing a representation back through the
constructor (spec §4.5): keyword arguments are matched by name, in
whatever order the representation emitted them, and handed to the
constructor. -/
def reconstruct (env : String → Option String) (args : List ReprArg) :
    Option UplinkConfig :=
  match findAuthArg args, findVersionArg args, findSystemsArg args with
  | some auth, some ver, some systems => mkUplinkConfig env auth ver systems
  | _, _, _ => none

/-- Replace every space of a string by an underscore (the default role
name to service name substitution, spec §4.5). -/
def underscore (s : String) : String :=
  ⟨s.data.map fun c => if c = ' ' then '_' else c⟩

/-- Modelled from the spec and pinned to the repository's test suite: the
service contributed by one requested role (spec §4.5 and
`src/tests/test_config.py` lines 277-304). `api` maps to `httpd`;
`amqp broker` maps to its `service` option when present and contributes
nothing otherwise; `shell` and `pulp cli` contribute nothing (the test's
expected set over the full role set contains no `pulp_cli`, so `pulp cli`
cannot follow the underscore default); every other role maps to its name
with spaces replaced by underscores. -/
def role_service (role : String) (opts : RoleOptions) : Option String :=
  if role = "api" then some "httpd"
  else if role = "amqp broker" then
    match opts.lookup "service" with
    | some (.str s) => some s
    | _ => none
  else if role = "shell" then none
  else if role = "pulp cli" then none
  else some (underscore role)

/-- Modelled from the spec: `UplinkConfig.services_for_roles` (spec §4.5):
the set of concrete service names contributed by the requested roles. -/
def services_for_roles (roles : List (String × RoleOptions)) : Finset String :=
  roles.foldl
    (fun acc p =>
      match role_service p.1 p.2 with
      | some s => insert s acc
      | none => acc)
    ∅

/-- The per-role service mapping exactly as claim C6 (and spec §4.5's
general sentence) words it: underscore substitution for every role except
`api`, `amqp broker` and `shell` — in particular `pulp cli` would map to
`pulp_cli`. Stated only to be compared against `role_service`. -/
def claimed_role_service (role : String) (opts : RoleOptions) : Option String :=
  if role = "api" then some "httpd"
  else if role = "amqp broker" then
    match opts.lookup "service" with
    | some (.str s) => some s
    | _ => none
  else if role = "shell" then none
  else some (underscore role)

/-- The service set that claim C6's general mapping sentence would
produce, for comparison with `services_for_roles`. -/
def claimed_services (roles : List (String × RoleOptions)) : Finset String :=
  roles.foldl
    (fun acc p =>
      match claimed_role_service p.1 p.2 with
      | some s => insert s acc
      | none => acc)
    ∅

/-- One requested role options record for every role of the fixed role
set, with no options (the test's `{role: {} for role in config.ROLES}`). -/
def allRolesEmpty : List (String × RoleOptions) := ROLES.map fun r => (r, [])

/-- The expected service set of `src/tests/test_config.py` lines 280-287. -/
def expectedServices : Finset String :=
  {"httpd", "mongod", "pulp_celerybeat", "pulp_resource_manager",
   "pulp_workers", "squid"}

/-- The keyword arguments `get_requests_kwargs` builds for an HTTP client:
the immutable credential pair, and the `verify` value when a system
exposes the `api` role. -/
structure RequestsKwargs where
  auth : String × String
  verify : Option OptValue
deriving DecidableEq

/-- The first system of a sequence exposing the `api` role. -/
def first_api_system (systems : List PulpSystem) : Option PulpSystem :=
  systems.find? fun s => (s.roles.lookup "api").isSome

/-- Modelled from the spec: `UplinkConfig.get_requests_kwargs` (spec §4.5):
`auth` is `pulp_auth` coerced to an immutable pair, `verify` is the `api`
role's `verify` option of the first system exposing an `api` role,
defaulting to `true` when unset. The first component of the result is the
configuration after the call, which the method leaves untouched (it never
mutates the stored `pulp_auth`). -/
def get_requests_kwargs (c : UplinkConfig) : UplinkConfig × Option RequestsKwargs :=
  (c,
   match c.pulp_auth with
   | [u, p] =>
     some { auth := (u, p)
            verify := (first_api_system c.systems).map fun s =>
              (((s.roles.lookup "api").getD []).lookup "verify").getD
                (.bool true) }
   | _ => none)

/-- The error kinds of `src/uplink/exceptions.py` that the configuration
engine can surface, plus a generic I/O error to distinguish it from the
dedicated not-found condition. -/
inductive UplinkError where
  | configFileNotFound
  | configFileSectionNotFound (name : String)
  | configValidation (msgs : List String)
  | genericIOError
deriving DecidableEq

/-- Join a candidate configuration directory with the settings filename. -/
def joinPath (dir file : String) : String := dir ++ "/" ++ file

/-- Modelled from the spec: `uplink.config._get_config_file_path`
(spec §4.4): iterate the candidate configuration directories in priority
order, test the chosen filename in each (`isfile` stands for the file
system's existence test), return the first existing match, and fail with
`ConfigFileNotFoundError` when no candidate exists. -/
def _get_config_file_path (isfile : String → Bool) :
    List String → String → Except UplinkError String
  | [], _ => .error .configFileNotFound
  | d :: rest, file =>
    if isfile (joinPath d file) then .ok (joinPath d file)
    else _get_config_file_path isfile rest file

/-- The record of `ValidateConfigTestCase.test_invalid_config`
(`src/tests/test_config.py` lines 125-137), generalised: the fixture with
`pulp.auth` replaced and the first system's hostname replaced. -/
def twoDefectFixture (auth : List String) (h : String) : RawConfig :=
  { pulp_auth := auth,
    pulp_version := "2.12.1",
    systems :=
      [⟨h, firstSystemRoles⟩,
       ⟨"second.example.com", secondSystemRoles⟩] }

/-- The record of `ValidateConfigTestCase.test_config_missing_roles`
(`src/tests/test_config.py` lines 139-150): the fixture with `api` and
`pulp workers` removed from every system's roles. -/
def missingRolesFixture : RawConfig :=
  { pulp_auth := ["username", "password"],
    pulp_version := "2.12.1",
    systems :=
      [⟨"first.example.com",
        [("amqp broker", [("service", .str "qpidd")]),
         ("mongod", []),
         ("pulp cli", []),
         ("pulp celerybeat", []),
         ("pulp resource manager", []),
         ("shell", [("transport", .str "local")]),
         ("squid", [])]⟩,
       ⟨"second.example.com",
        [("pulp celerybeat", []),
         ("pulp resource manager", []),
         ("shell", [("transport", .str "ssh")]),
         ("squid", [])]⟩] }

/-- Walking `pulp.auth` produces no message when no element is empty. -/
theorem auth_elem_errors_eq_nil {l : List String} (h : ∀ a ∈ l, a ≠ "") :
    ∀ i, auth_elem_errors i l = [] := by
  induction l with
  | nil => intro i; rfl
  | cons a rest ih =>
    intro i
    have ha : a ≠ "" := h a (List.mem_cons_self a rest)
    simp only [auth_elem_errors, if_neg ha, List.nil_append]
    exact ih (fun x hx => h x (List.mem_cons_of_mem a hx)) (i + 1)

/-- C1: on a configuration record with multiple structural violations —
`pulp.auth` shortened below 2 elements (its elements themselves non-empty)
and the first system's hostname failing hostname syntax — `validate_config`
reports every violation, producing exactly one message per violation, each
embedding the bracket-indexed path to the offending field; the two-defect
record yields exactly those two messages. -/
theorem validate_config_reports_every_violation
    (auth : List String) (h : String)
    (hlen : auth.length < 2) (hne : ∀ a ∈ auth, a ≠ "")
    (hh : is_valid_hostname h = false) :
    validate_config (twoDefectFixture auth h)
      = some [auth_too_short_msg auth, hostname_msg 0 h] := by
  have hel : auth_elem_errors 0 auth = [] := auth_elem_errors_eq_nil hne 0
  have h1 : role_key_errors 0 firstSystemRoles = [] := by decide
  have h2 : system_errors 1 [⟨"second.example.com", secondSystemRoles⟩] = [] := by
    decide
  have hv : ¬ (("2.12.1" : String) = "") := by decide
  have hse : structural_errors (twoDefectFixture auth h)
      = [auth_too_short_msg auth, hostname_msg 0 h] := by
    simp [structural_errors, twoDefectFixture, auth_errors, if_pos hlen, hel,
      system_errors, h1, h2, hh, hv]
    exact ⟨by decide, by decide⟩
  simp [validate_config, hse]

/-- Witness for C1: the exact record of the repository's test (auth
emptied, first hostname emptied) yields exactly the two expected messages. -/
theorem validate_config_reports_every_violation_witness :
    validate_config (twoDefectFixture [] "")
      = some [auth_too_short_msg [], hostname_msg 0 ""] :=
  validate_config_reports_every_violation [] "" (by decide)
    (by intro a ha; simp at ha) (by decide)

/-- C2: on a record that passes the structural checks but whose systems, in
union, omit mandatory roles, `validate_config` emits exactly one combined
message listing all missing role names comma-separated — and on the
fixture with both `api` and `pulp workers` removed from every system that
one message names both roles. -/
theorem validate_config_missing_roles_combined :
    (∀ c : RawConfig, structural_errors c = [] → missing_roles c ≠ [] →
      validate_config c
        = some ["The following roles are missing: "
                  ++ String.intercalate ", " (missing_roles c)])
    ∧ validate_config missingRolesFixture
        = some ["The following roles are missing: api, pulp workers"] := by
  constructor
  · intro c h1 h2
    simp [validate_config, role_errors, h1, h2]
  · decide

/-- C3: `validate_config` fails (models raising `ConfigValidationError`) if
and only if at least one violation was collected, the failure carries the
full list of collected messages, and the valid fixture record yields no
failure. -/
theorem validate_config_error_iff_messages :
    (∀ c : RawConfig,
      (validate_config c = none ↔ collected_messages c = [])
      ∧ ∀ msgs, validate_config c = some msgs → msgs = collected_messages c)
    ∧ validate_config uplinkFixture = none := by
  constructor
  · intro c
    by_cases h1 : structural_errors c = []
    · by_cases h2 : role_errors c = []
      · simp [validate_config, collected_messages, h1, h2]
      · simp [validate_config, collected_messages, h1, h2]
    · simp [validate_config, collected_messages, h1]
  · decide

/-- C4: config-file path resolution walks the candidate directories in
priority order and returns the first (directory, filename) candidate that
exists; when no candidate exists at any search root it fails with the
dedicated `ConfigFileNotFoundError`, not a generic I/O error. -/
theorem get_config_file_path_first_match_or_not_found
    (isfile : String → Bool) (pre : List String) (d : String)
    (post : List String) (dirs : List String) (file : String)
    (hpre : ∀ d2 ∈ pre, isfile (joinPath d2 file) = false)
    (hd : isfile (joinPath d file) = true)
    (hall : ∀ d2 ∈ dirs, isfile (joinPath d2 file) = false) :
    _get_config_file_path isfile (pre ++ d :: post) file = .ok (joinPath d file)
    ∧ _get_config_file_path isfile dirs file
        = .error UplinkError.configFileNotFound := by
  constructor
  · induction pre with
    | nil => simp [_get_config_file_path, hd]
    | cons p rest ih =>
      have hp : isfile (joinPath p file) = false :=
        hpre p (List.mem_cons_self p rest)
      simp only [List.cons_append, _get_config_file_path, hp]
      simp only [Bool.false_eq_true, if_false]
      exact ih fun d2 hm => hpre d2 (List.mem_cons_of_mem p hm)
  · induction dirs with
    | nil => rfl
    | cons p rest ih =>
      have hp : isfile (joinPath p file) = false :=
        hall p (List.mem_cons_self p rest)
      simp only [_get_config_file_path, hp, Bool.false_eq_true, if_false]
      exact ih fun d2 hm => hall d2 (List.mem_cons_of_mem p hm)

/-- Witness for C4: with only `/etc/xdg/uplink/settings.json` existing, the
search over three roots returns it, and a search over roots where nothing
exists fails with the not-found error. -/
theorem get_config_file_path_witness :
    _get_config_file_path
        (fun p => p = "/etc/xdg/uplink/settings.json")
        (["/root/.config/uplink"] ++ "/etc/xdg/uplink" :: ["/etc/extra"])
        "settings.json"
      = .ok (joinPath "/etc/xdg/uplink" "settings.json")
    ∧ _get_config_file_path
        (fun p => p = "/etc/xdg/uplink/settings.json")
        ["/root/.config/uplink"] "settings.json"
      = .error UplinkError.configFileNotFound :=
  get_config_file_path_first_match_or_not_found
    (fun p => p = "/etc/xdg/uplink/settings.json")
    ["/root/.config/uplink"] "/etc/xdg/uplink" ["/etc/extra"]
    ["/root/.config/uplink"] "settings.json"
    (by decide) (by decide) (by decide)

/-- Membership in the fold underlying `services_for_roles`: an element is
in the fold exactly when it was in the accumulator or is contributed by
one of the requested roles. -/
theorem mem_services_foldl (roles : List (String × RoleOptions)) :
    ∀ (acc : Finset String) (s : String),
      s ∈ roles.foldl
            (fun acc p =>
              match role_service p.1 p.2 with
              | some s => insert s acc
              | none => acc)
            acc
        ↔ s ∈ acc ∨ ∃ p ∈ roles, role_service p.1 p.2 = some s := by
  induction roles with
  | nil => intro acc s; simp
  | cons q rest ih =>
    intro acc s
    simp only [List.foldl_cons, List.mem_cons]
    rcases hq : role_service q.1 q.2 with _ | v
    · rw [ih]
      constructor
      · rintro (h | ⟨p, hp, hps⟩)
        · exact Or.inl h
        · exact Or.inr ⟨p, Or.inr hp, hps⟩
      · rintro (h | ⟨p, (rfl | hp), hps⟩)
        · exact Or.inl h
        · rw [hq] at hps; cases hps
        · exact Or.inr ⟨p, hp, hps⟩
    · rw [ih]
      simp only [Finset.mem_insert]
      constructor
      · rintro ((rfl | h) | ⟨p, hp, hps⟩)
        · exact Or.inr ⟨q, Or.inl rfl, hq⟩
        · exact Or.inl h
        · exact Or.inr ⟨p, Or.inr hp, hps⟩
      · rintro (h | ⟨p, (rfl | hp), hps⟩)
        · exact Or.inl (Or.inr h)
        · rw [hq] at hps
          exact Or.inl (Or.inl (Option.some_injective _ hps).symm)
        · exact Or.inr ⟨p, hp, hps⟩

/-- C6 (amended): `services_for_roles` maps each requested role through
`role_service` — underscore substitution by default, `api` to `httpd`,
`amqp broker` to its `service` option when present and nothing otherwise,
and both `shell` and `pulp cli` contributing no service; consequently the
full default role set with no AMQP service option yields exactly
`{httpd, mongod, pulp_celerybeat, pulp_resource_manager, pulp_workers,
squid}`, and setting the AMQP role's `service` option to `qpidd` or
`rabbitmq` adds exactly that value to the set. -/
theorem services_for_roles_spec :
    (∀ (roles : List (String × RoleOptions)) (s : String),
      s ∈ services_for_roles roles ↔ ∃ p ∈ roles, role_service p.1 p.2 = some s)
    ∧ services_for_roles allRolesEmpty = expectedServices
    ∧ (∀ svc, svc = "qpidd" ∨ svc = "rabbitmq" →
        services_for_roles
            (allRolesEmpty.map fun p =>
              if p.1 = "amqp broker" then (p.1, [("service", OptValue.str svc)])
              else p)
          = insert svc expectedServices) := by
  refine ⟨fun roles s => ?_, by decide, fun svc h => ?_⟩
  · rw [services_for_roles, mem_services_foldl]
    simp
  · rcases h with rfl | rfl <;> decide

/-- Counterexample for C6 as stated: the claim's own general mapping
sentence (underscore substitution for every role except `api`,
`amqp broker` and `shell`) applied to the full default role set produces
`pulp_cli` and therefore not the set the claim (and the repository's
test suite) say the call yields; the code's mapping gives exactly the
expected set because `pulp cli` contributes no service. -/
theorem services_for_roles_claim_counterexample :
    claimed_services allRolesEmpty ≠ expectedServices
    ∧ "pulp_cli" ∈ claimed_services allRolesEmpty
    ∧ services_for_roles allRolesEmpty = expectedServices
    ∧ "pulp_cli" ∉ services_for_roles allRolesEmpty := by
  refine ⟨by decide, by decide, by decide, by decide⟩

/-- Find after a skipped run: when every element of a first run fails the
test and `x` passes it, the first match of the concatenation is `x`. -/
theorem find?_after_skipped {α : Type} (p : α → Bool) (x : α) (hx : p x = true) :
    ∀ (pre post : List α), (∀ t ∈ pre, p t = false) →
      (pre ++ x :: post).find? p = some x := by
  intro pre
  induction pre with
  | nil => intro post _; simp [List.find?, hx]
  | cons a rest ih =>
    intro post h
    have ha : p a = false := h a (List.mem_cons_self a rest)
    simp only [List.cons_append, List.find?, ha]
    exact ih post fun t ht => h t (List.mem_cons_of_mem a ht)

/-- C7: `get_requests_kwargs` leaves the configuration untouched (the
stored mutable `pulp_auth` list is not modified), returns `auth` as the
immutable pair holding the two elements of `pulp_auth`, and returns
`verify` as the `verify` option of the `api` role of the first system
exposing that role, defaulting to `true` when the option is unset. -/
theorem get_requests_kwargs_spec
    (c : UplinkConfig) (u p : String) (pre : List PulpSystem) (s : PulpSystem)
    (post : List PulpSystem) (opts : RoleOptions)
    (hauth : c.pulp_auth = [u, p])
    (hsys : c.systems = pre ++ s :: post)
    (hpre : ∀ t ∈ pre, t.roles.lookup "api" = none)
    (hs : s.roles.lookup "api" = some opts) :
    (get_requests_kwargs c).1 = c
    ∧ (get_requests_kwargs c).2
        = some { auth := (u, p),
                 verify := some ((opts.lookup "verify").getD (OptValue.bool true)) } := by
  refine ⟨rfl, ?_⟩
  have hfind : first_api_system c.systems = some s := by
    rw [hsys, first_api_system]
    refine find?_after_skipped _ s ?_ pre post fun t ht => ?_
    · simp [hs]
    · simp [hpre t ht]
  simp [get_requests_kwargs, hauth, hfind, hs]

/-- Witness for C7: on a config whose only system exposes the `api` role
with no `verify` option, the call leaves the config unchanged and returns
the credential pair with `verify` defaulted to `true`. -/
theorem get_requests_kwargs_spec_witness :
    (get_requests_kwargs
        ⟨["username", "password"], ⟨[2, 12]⟩,
         [⟨"pulp.example.com", [("api", [("scheme", .str "https")])]⟩],
         "settings.json", "uplink"⟩).1
      = ⟨["username", "password"], ⟨[2, 12]⟩,
         [⟨"pulp.example.com", [("api", [("scheme", .str "https")])]⟩],
         "settings.json", "uplink"⟩
    ∧ (get_requests_kwargs
        ⟨["username", "password"], ⟨[2, 12]⟩,
         [⟨"pulp.example.com", [("api", [("scheme", .str "https")])]⟩],
         "settings.json", "uplink"⟩).2
      = some { auth := ("username", "password"),
               verify := some (([("scheme", OptValue.str "https")].lookup "verify").getD
                 (OptValue.bool true)) } :=
  get_requests_kwargs_spec _ "username" "password" []
    ⟨"pulp.example.com", [("api", [("scheme", .str "https")])]⟩ []
    [("scheme", .str "https")] rfl rfl (by intro t ht; simp at ht) rfl

/-- C8: the settings filename the constructor stores for path resolution is
the value of the `UPLINK_CONFIG_FILE` environment variable verbatim when
that variable is set, and the default `settings.json` when it is unset. -/
theorem uplink_config_file_env
    (env : String → Option String) (auth : List String) (ver : String)
    (systems : List PulpSystem) (c : UplinkConfig)
    (hc : mkUplinkConfig env auth ver systems = some c) :
    (∀ v, env "UPLINK_CONFIG_FILE" = some v → c.xdg_config_file = v)
    ∧ (env "UPLINK_CONFIG_FILE" = none → c.xdg_config_file = "settings.json") := by
  rw [mkUplinkConfig] at hc
  rcases hv : parseVersion ver with _ | v
  · rw [hv] at hc; cases hc
  · rw [hv] at hc
    simp only [Option.map_some'] at hc
    obtain rfl := Option.some.inj hc
    constructor
    · intro v2 h2; simp [h2]
    · intro h2; simp [h2]

/-- Witness for C8: with the environment variable set to `custom.json` the
constructor stores that name verbatim. -/
theorem uplink_config_file_env_witness :
    (∀ v, (fun k => if k = "UPLINK_CONFIG_FILE" then some "custom.json" else none)
            "UPLINK_CONFIG_FILE" = some v →
      (⟨["u"], ⟨[1, 2]⟩, [], "custom.json", "uplink"⟩ : UplinkConfig).xdg_config_file = v)
    ∧ ((fun k => if k = "UPLINK_CONFIG_FILE" then some "custom.json" else none)
          "UPLINK_CONFIG_FILE" = (none : Option String) →
      (⟨["u"], ⟨[1, 2]⟩, [], "custom.json", "uplink"⟩ : UplinkConfig).xdg_config_file
        = "settings.json") :=
  uplink_config_file_env
    (fun k => if k = "UPLINK_CONFIG_FILE" then some "custom.json" else none)
    ["u"] "1.2" [] ⟨["u"], ⟨[1, 2]⟩, [], "custom.json", "uplink"⟩ (by decide)

/-- A component sequence padded with zeros up to length `n`. -/
def padListZeros (l : List Nat) (n : Nat) : List Nat :=
  l ++ List.replicate (n - l.length) 0

/-- Lexicographic strict order on numeric component sequences of equal
length, as the spec words it. -/
def lexLtB : List Nat → List Nat → Bool
  | [], _ => false
  | _ :: _, [] => false
  | a :: as, b :: bs => a < b || (a = b && lexLtB as bs)

/-- Padding the empty sequence gives a run of zeros. -/
theorem padListZeros_nil (n : Nat) : padListZeros [] n = List.replicate n 0 := by
  simp [padListZeros]

/-- Padding a cons to a successor length pads the tail. -/
theorem padListZeros_cons_succ (x : Nat) (l : List Nat) (n : Nat) :
    padListZeros (x :: l) (n + 1) = x :: padListZeros l n := by
  simp [padListZeros, Nat.succ_sub_succ]

/-- Padding a sequence to its own length changes nothing. -/
theorem padListZeros_self (l : List Nat) : padListZeros l l.length = l := by
  simp [padListZeros]

/-- Padding to at least the sequence's length yields exactly length `n`. -/
theorem padListZeros_length {l : List Nat} {n : Nat} (h : l.length ≤ n) :
    (padListZeros l n).length = n := by
  simp [padListZeros]
  omega

/-- Comparing a run of zeros of matching length against a sequence is the
same as comparing the empty sequence against it. -/
theorem vcompare_replicate_zero (bs : List Nat) :
    vcompare (List.replicate bs.length 0) bs = vcompare [] bs := by
  induction bs with
  | nil => rfl
  | cons y bs ih =>
    by_cases hy : y = 0
    · subst hy
      simp [List.replicate_succ, vcompare, allZerosB, ih]
    · have hpos : 0 < y := by omega
      simp [List.replicate_succ, vcompare, allZerosB, hpos, hy]

/-- Component comparison is unchanged by padding both sides with zeros to
the common length: the walk of `vcompare` treats the shorter sequence as
zero-extended. -/
theorem vcompare_pad (a : List Nat) : ∀ b : List Nat,
    vcompare a b
      = vcompare (padListZeros a (max a.length b.length))
                 (padListZeros b (max a.length b.length)) := by
  induction a with
  | nil =>
    intro b
    rw [padListZeros_nil]
    simp only [List.length_nil, Nat.zero_max, padListZeros_self]
    exact (vcompare_replicate_zero b).symm
  | cons x as iha =>
    intro b
    cases b with
    | nil =>
      have hpa : padListZeros (x :: as) (x :: as).length = x :: as :=
        padListZeros_self (x :: as)
      simp only [List.length_nil, List.length_cons, Nat.max_zero] at *
      rw [padListZeros_nil, List.replicate_succ, hpa]
      simp only [vcompare]
      by_cases hx : 0 < x
      · rw [if_pos hx, if_neg (by omega : ¬ x < 0), if_pos hx]
      · have hx0 : x = 0 := by omega
        subst hx0
        simp only [Nat.lt_irrefl, if_false]
        rw [iha [], padListZeros_nil]
        simp only [List.length_nil, Nat.max_zero, padListZeros_self]
    | cons y bs =>
      simp only [List.length_cons, Nat.succ_max_succ, padListZeros_cons_succ]
      simp only [vcompare]
      by_cases h1 : x < y
      · rw [if_pos h1, if_pos h1]
      · rw [if_neg h1, if_neg h1]
        by_cases h2 : y < x
        · rw [if_pos h2, if_pos h2]
        · rw [if_neg h2, if_neg h2, iha bs]

/-- On sequences of equal length, component comparison returning `eq` is
exactly structural equality. -/
theorem vcompare_eq_iff_of_length : ∀ a b : List Nat, a.length = b.length →
    (vcompare a b = Ordering.eq ↔ a = b) := by
  intro a
  induction a with
  | nil =>
    intro b h
    have hb : b = [] := List.eq_nil_of_length_eq_zero h.symm
    subst hb
    simp [vcompare, allZerosB]
  | cons x as iha =>
    intro b h
    cases b with
    | nil => simp at h
    | cons y bs =>
      simp only [List.length_cons, Nat.succ_inj'] at h
      simp only [vcompare]
      by_cases h1 : x < y
      · rw [if_pos h1]
        constructor
        · intro hc; cases hc
        · intro hc
          cases hc
          omega
      · rw [if_neg h1]
        by_cases h2 : y < x
        · rw [if_pos h2]
          constructor
          · intro hc; cases hc
          · intro hc
            cases hc
            omega
        · have hxy : x = y := by omega
          subst hxy
          rw [if_neg h2, iha bs h]
          simp

/-- On sequences of equal length, component comparison returning `lt` is
exactly the spec's lexicographic strict order. -/
theorem vcompare_lt_iff_of_length : ∀ a b : List Nat, a.length = b.length →
    (vcompare a b = Ordering.lt ↔ lexLtB a b = true) := by
  intro a
  induction a with
  | nil =>
    intro b h
    have hb : b = [] := List.eq_nil_of_length_eq_zero h.symm
    subst hb
    simp [vcompare, allZerosB, lexLtB]
  | cons x as iha =>
    intro b h
    cases b with
    | nil => simp at h
    | cons y bs =>
      simp only [List.length_cons, Nat.succ_inj'] at h
      simp only [vcompare, lexLtB]
      by_cases h1 : x < y
      · simp [h1]
      · rw [if_neg h1]
        by_cases h2 : y < x
        · rw [if_pos h2]
          simp only [Bool.or_eq_true, Bool.and_eq_true, decide_eq_true_eq]
          constructor
          · intro hc; cases hc
          · rintro (hc | ⟨hc, _⟩) <;> omega
        · have hxy : x = y := by omega
          subst hxy
          rw [if_neg h2, iha bs h]
          simp

/-- C9: version equality and strict ordering are lexicographic on the
numeric components with the shorter component sequence treated as padded
with zeros; in particular `Version "2.12"` equals `Version "2.12.0"` and
`Version "2.9"` is strictly below `Version "2.12"`. -/
theorem version_comparison_padded :
    (∀ v w : Version,
      (v.veq w = true ↔
        padListZeros v.components (max v.components.length w.components.length)
          = padListZeros w.components
              (max v.components.length w.components.length))
      ∧ (v.vlt w = true ↔
        lexLtB
            (padListZeros v.components
              (max v.components.length w.components.length))
            (padListZeros w.components
              (max v.components.length w.components.length)) = true))
    ∧ (∃ v1 v2, parseVersion "2.12" = some v1 ∧ parseVersion "2.12.0" = some v2
        ∧ v1.veq v2 = true)
    ∧ (∃ v1 v2, parseVersion "2.9" = some v1 ∧ parseVersion "2.12" = some v2
        ∧ v1.vlt v2 = true ∧ v1.veq v2 = false) := by
  refine ⟨fun v w => ?_,
    ⟨⟨[2, 12]⟩, ⟨[2, 12, 0]⟩, by decide, by decide, by decide⟩,
    ⟨⟨[2, 9]⟩, ⟨[2, 12]⟩, by decide, by decide, by decide, by decide⟩⟩
  have hla : v.components.length ≤ max v.components.length w.components.length :=
    Nat.le_max_left _ _
  have hlb : w.components.length ≤ max v.components.length w.components.length :=
    Nat.le_max_right _ _
  have hlen : (padListZeros v.components
        (max v.components.length w.components.length)).length
      = (padListZeros w.components
        (max v.components.length w.components.length)).length := by
    rw [padListZeros_length hla, padListZeros_length hlb]
  constructor
  · rw [Version.veq, decide_eq_true_eq, vcompare_pad]
    exact vcompare_eq_iff_of_length _ _ hlen
  · rw [Version.vlt, decide_eq_true_eq, vcompare_pad]
    exact vcompare_lt_iff_of_length _ _ hlen

/-- Facts about decimal digit characters below ten: they are digit
characters, they decode back to their value, and none of them is a dot. -/
theorem digitChar_facts : ∀ d, d < 10 →
    (digitChar d).isDigit = true ∧ digitVal (digitChar d) = d
    ∧ ¬ (digitChar d = '.') := by decide

/-- The accumulator of the fuel-driven decimal rendering is a suffix. -/
theorem natCharsAux_append : ∀ (fuel n : Nat) (acc : List Char),
    natCharsAux fuel n acc = natCharsAux fuel n [] ++ acc := by
  intro fuel
  induction fuel with
  | zero => intro n acc; rfl
  | succ fuel ih =>
    intro n acc
    by_cases h : n < 10
    · simp [natCharsAux, h]
    · simp only [natCharsAux, if_neg h]
      rw [ih (n / 10) (digitChar (n % 10) :: acc), ih (n / 10) [digitChar (n % 10)]]
      simp

/-- With sufficient fuel the decimal rendering is non-empty, made of digit
characters (never a dot), and folds back to the rendered number. -/
theorem natCharsAux_spec : ∀ (fuel n : Nat), n ≤ fuel →
    natCharsAux (fuel + 1) n [] ≠ []
    ∧ (∀ c ∈ natCharsAux (fuel + 1) n [], c.isDigit = true ∧ ¬ (c = '.'))
    ∧ ∀ a : Nat,
        (natCharsAux (fuel + 1) n []).foldl (fun m c => m * 10 + digitVal c) a
          = a * 10 ^ (natCharsAux (fuel + 1) n []).length + n := by
  intro fuel
  induction fuel with
  | zero =>
    intro n hn
    have h0 : n = 0 := by omega
    subst h0
    refine ⟨by simp [natCharsAux], ?_, ?_⟩
    · intro c hc
      simp only [natCharsAux, if_pos (by omega : (0:Nat) < 10)] at hc
      simp at hc
      subst hc
      exact ⟨(digitChar_facts 0 (by omega)).1, (digitChar_facts 0 (by omega)).2.2⟩
    · intro a
      simp [natCharsAux, (digitChar_facts 0 (by omega)).2.1, pow_one]
  | succ fuel ih =>
    intro n hn
    by_cases h : n < 10
    · refine ⟨by simp [natCharsAux, h], ?_, ?_⟩
      · intro c hc
        simp only [natCharsAux, if_pos h] at hc
        simp at hc
        subst hc
        exact ⟨(digitChar_facts n h).1, (digitChar_facts n h).2.2⟩
      · intro a
        simp [natCharsAux, h, (digitChar_facts n h).2.1, pow_one]
    · have hdiv : n / 10 ≤ fuel := by omega
      obtain ⟨hne, hall, hfold⟩ := ih (n / 10) hdiv
      have heq : natCharsAux (fuel + 1 + 1) n []
          = natCharsAux (fuel + 1) (n / 10) [] ++ [digitChar (n % 10)] := by
        simp only [natCharsAux, if_neg h]
        exact natCharsAux_append (fuel + 1) (n / 10) [digitChar (n % 10)]
      have hmod : n % 10 < 10 := Nat.mod_lt _ (by omega)
      refine ⟨?_, ?_, ?_⟩
      · rw [heq]; simp
      · intro c hc
        rw [heq] at hc
        rcases List.mem_append.mp hc with hc | hc
        · exact hall c hc
        · simp at hc
          subst hc
          exact ⟨(digitChar_facts _ hmod).1, (digitChar_facts _ hmod).2.2⟩
      · intro a
        rw [heq, List.foldl_append]
        simp only [List.foldl_cons, List.foldl_nil]
        rw [hfold a, (digitChar_facts _ hmod).2.1, List.length_append,
          List.length_singleton]
        have hp : (10 : Nat) ^ ((natCharsAux (fuel + 1) (n / 10) []).length + 1)
            = 10 ^ (natCharsAux (fuel + 1) (n / 10) []).length * 10 :=
          pow_succ 10 _
        rw [hp]
        calc (a * 10 ^ (natCharsAux (fuel + 1) (n / 10) []).length + n / 10) * 10
              + n % 10
            = a * (10 ^ (natCharsAux (fuel + 1) (n / 10) []).length * 10)
              + (10 * (n / 10) + n % 10) := by ring
          _ = a * (10 ^ (natCharsAux (fuel + 1) (n / 10) []).length * 10) + n := by
              rw [Nat.div_add_mod]

/-- The decimal rendering of any natural number is a non-empty run of
digit characters (never a dot) that folds back to the number. -/
theorem natChars_spec (n : Nat) :
    natChars n ≠ [] ∧ (∀ c ∈ natChars n, c.isDigit = true ∧ ¬ (c = '.'))
    ∧ (natChars n).foldl (fun m c => m * 10 + digitVal c) 0 = n := by
  obtain ⟨h1, h2, h3⟩ := natCharsAux_spec n n le_rfl
  exact ⟨h1, h2, by simpa using h3 0⟩

/-- Parsing the decimal rendering of a number recovers the number. -/
theorem parseNatChars_natChars (n : Nat) : parseNatChars (natChars n) = some n := by
  obtain ⟨h1, h2, h3⟩ := natChars_spec n
  have hcond : (natChars n ≠ [] && (natChars n).all Char.isDigit) = true := by
    refine (Bool.and_eq_true _ _).mpr ⟨decide_eq_true h1, ?_⟩
    rw [List.all_eq_true]
    intro c hc
    exact (h2 c hc).1
  simp only [parseNatChars, hcond, if_true]
  exact congrArg some h3

/-- Splitting a list without the separator gives the single run. -/
theorem splitOnChar_not_mem {sep : Char} :
    ∀ {l : List Char}, sep ∉ l → splitOnChar sep l = [l] := by
  intro l
  induction l with
  | nil => intro _; rfl
  | cons c cs ih =>
    intro h
    have hc : ¬ (c = sep) := fun e => h (e ▸ List.mem_cons_self c cs)
    have hcs : sep ∉ cs := fun e => h (List.mem_cons_of_mem c e)
    simp [splitOnChar, if_neg hc, ih hcs]

/-- Splitting past a separator-free run peels the run off. -/
theorem splitOnChar_append {sep : Char} :
    ∀ {xs : List Char} (ys : List Char), sep ∉ xs →
      splitOnChar sep (xs ++ sep :: ys) = xs :: splitOnChar sep ys := by
  intro xs
  induction xs with
  | nil => intro ys _; simp [splitOnChar]
  | cons c cs ih =>
    intro ys h
    have hc : ¬ (c = sep) := fun e => h (e ▸ List.mem_cons_self c cs)
    have hcs : sep ∉ cs := fun e => h (List.mem_cons_of_mem c e)
    rw [List.cons_append]
    simp only [splitOnChar, if_neg hc]
    rw [ih ys hcs]
    rfl

/-- Splitting the rendering of a non-empty component sequence on dots
recovers the rendering of each component. -/
theorem splitOnChar_versionChars : ∀ comps : List Nat, comps ≠ [] →
    splitOnChar '.' (versionChars comps) = comps.map natChars := by
  intro comps
  induction comps with
  | nil => intro h; cases h rfl
  | cons n rest ih =>
    intro _
    have hnd : '.' ∉ natChars n := fun hm => ((natChars_spec n).2.1 _ hm).2 rfl
    cases rest with
    | nil =>
      simp only [versionChars, List.map]
      exact splitOnChar_not_mem hnd
    | cons m rest2 =>
      simp only [versionChars]
      rw [splitOnChar_append _ hnd, ih (by simp)]
      rfl

/-- Parsing component by component recovers the components. -/
theorem mapM_parseNat_natChars : ∀ comps : List Nat,
    (comps.map natChars).mapM parseNatChars = some comps := by
  intro comps
  induction comps with
  | nil => rfl
  | cons n rest ih =>
    rw [List.map_cons, List.mapM_cons, parseNatChars_natChars n, ih]
    rfl

/-- Round trip at the heart of the representation law: parsing the string
rendering of a version with at least one component recovers the version. -/
theorem parseVersion_versionToString (v : Version) (h : v.components ≠ []) :
    parseVersion (versionToString v) = some v := by
  obtain ⟨comps⟩ := v
  simp only [parseVersion, versionToString]
  rw [splitOnChar_versionChars comps h, mapM_parseNat_natChars]
  rfl

/-- The first hit of `findSome?` does not depend on the order of the list
when all hits agree. -/
theorem findSome?_perm {α β : Type} (f : α → Option β) :
    ∀ {l l2 : List α}, l.Perm l2 →
      (∀ a ∈ l, ∀ b ∈ l, f a ≠ none → f b ≠ none → f a = f b) →
      l.findSome? f = l2.findSome? f := by
  intro l l2 hp
  induction hp with
  | nil => intro _; rfl
  | cons x hp2 ih =>
    intro h
    simp only [List.findSome?_cons]
    cases hfx : f x with
    | some b => rfl
    | none =>
      exact ih fun a ha b hb => h a (List.mem_cons_of_mem x ha)
        b (List.mem_cons_of_mem x hb)
  | swap x y l =>
    intro h
    simp only [List.findSome?_cons]
    cases hfx : f x with
    | some bx =>
      cases hfy : f y with
      | some bb =>
        have hxy : f x = f y :=
          h x (List.mem_cons_of_mem y (List.mem_cons_self x l))
            y (List.mem_cons_self y (x :: l))
            (by simp [hfx]) (by simp [hfy])
        rw [hfx, hfy] at hxy
        exact hxy.symm
      | none => rfl
    | none =>
      cases hfy : f y with
      | some bb => rfl
      | none => rfl
  | trans h1 h2 ih1 ih2 =>
    intro h
    rw [ih1 h]
    exact ih2 fun a ha b hb =>
      h a (h1.mem_iff.mpr ha) b (h1.mem_iff.mpr hb)

/-- C5: parsing the developer-facing representation of an `UplinkConfig`
back through the constructor — whichever order of keyword arguments the
representation emits — yields an instance whose `pulp_version` and
`systems` (and `pulp_auth`) equal the original's. -/
theorem repr_round_trip (env : String → Option String) (c : UplinkConfig)
    (args : List ReprArg) (hv : c.pulp_version.components ≠ [])
    (hperm : args.Perm (reprArgsOf c)) :
    ∃ c2, reconstruct env args = some c2
      ∧ c2.pulp_version = c.pulp_version ∧ c2.systems = c.systems
      ∧ c2.pulp_auth = c.pulp_auth := by
  have hmem : ∀ a ∈ args, a = ReprArg.pulpAuth c.pulp_auth
      ∨ a = ReprArg.pulpVersion (versionToString c.pulp_version)
      ∨ a = ReprArg.systems c.systems := by
    intro a ha
    have h2 := hperm.subset ha
    simpa [reprArgsOf] using h2
  have hauth : findAuthArg args = some c.pulp_auth := by
    rw [findAuthArg, findSome?_perm _ hperm ?ua]
    case ua =>
      intro a ha b hb hfa hfb
      rcases hmem a ha with rfl | rfl | rfl <;>
        rcases hmem b hb with rfl | rfl | rfl <;> simp_all
    simp [reprArgsOf, List.findSome?_cons]
  have hver : findVersionArg args = some (versionToString c.pulp_version) := by
    rw [findVersionArg, findSome?_perm _ hperm ?uv]
    case uv =>
      intro a ha b hb hfa hfb
      rcases hmem a ha with rfl | rfl | rfl <;>
        rcases hmem b hb with rfl | rfl | rfl <;> simp_all
    simp [reprArgsOf, List.findSome?_cons]
  have hsys : findSystemsArg args = some c.systems := by
    rw [findSystemsArg, findSome?_perm _ hperm ?us]
    case us =>
      intro a ha b hb hfa hfb
      rcases hmem a ha with rfl | rfl | rfl <;>
        rcases hmem b hb with rfl | rfl | rfl <;> simp_all
    simp [reprArgsOf, List.findSome?_cons]
  simp only [reconstruct, hauth, hver, hsys, mkUplinkConfig,
    parseVersion_versionToString c.pulp_version hv, Option.map_some']
  exact ⟨_, rfl, rfl, rfl, rfl⟩

/-- Witness for C5: a concrete configuration reconstructed from its
keyword arguments emitted in reversed order. -/
theorem repr_round_trip_witness :
    ∃ c2, reconstruct (fun _ => none)
        [ReprArg.systems [], ReprArg.pulpVersion "2.12.1",
         ReprArg.pulpAuth ["u", "p"]] = some c2
      ∧ c2.pulp_version
          = (⟨["u", "p"], ⟨[2, 12, 1]⟩, [], "settings.json", "uplink"⟩ :
              UplinkConfig).pulp_version
      ∧ c2.systems
          = (⟨["u", "p"], ⟨[2, 12, 1]⟩, [], "settings.json", "uplink"⟩ :
              UplinkConfig).systems
      ∧ c2.pulp_auth
          = (⟨["u", "p"], ⟨[2, 12, 1]⟩, [], "settings.json", "uplink"⟩ :
              UplinkConfig).pulp_auth :=
  repr_round_trip (fun _ => none)
    ⟨["u", "p"], ⟨[2, 12, 1]⟩, [], "settings.json", "uplink"⟩
    [ReprArg.systems [], ReprArg.pulpVersion "2.12.1",
     ReprArg.pulpAuth ["u", "p"]]
    (by decide) (by decide)

/-- C10: constructing an `UplinkConfig` with a dot-separated numeric
version string stores `pulp_auth` and `systems` exactly as given and
stores `pulp_version` as the parsed `Version` value; and for a canonical
component rendering, converting the stored version back to a string
yields the given string. -/
theorem init_stores_parsed_version :
    (∀ (env : String → Option String) (auth : List String)
        (systems : List PulpSystem) (s : String) (v : Version),
      parseVersion s = some v →
      ∃ c, mkUplinkConfig env auth s systems = some c
        ∧ c.pulp_auth = auth ∧ c.systems = systems ∧ c.pulp_version = v)
    ∧ ∀ (env : String → Option String) (auth : List String)
        (systems : List PulpSystem) (v : Version), v.components ≠ [] →
      ∃ c, mkUplinkConfig env auth (versionToString v) systems = some c
        ∧ c.pulp_version = v
        ∧ versionToString c.pulp_version = versionToString v := by
  constructor
  · intro env auth systems s v hv
    simp only [mkUplinkConfig, hv, Option.map_some']
    exact ⟨_, rfl, rfl, rfl, rfl⟩
  · intro env auth systems v hv
    simp only [mkUplinkConfig, parseVersion_versionToString v hv,
      Option.map_some']
    exact ⟨_, rfl, rfl, rfl⟩

end Uplink
